import Mathlib

/-!
Verification development for the certification core of the agent library
(packages/agent/src: request-id hashing, hash-tree reconstruction and lookup,
certificate verification, and response polling).

Byte strings (JS ArrayBuffer / Uint8Array contents) are embedded as List Nat,
each element a byte value 0..255.  SHA-256, BLS and CBOR are external
primitives consumed through narrow interfaces; they are embedded as function
parameters.  Functions from the repository's byte-utility module that are not
part of the provided sources (compare, bufEquals, concat, fromHex) are
modelled from the specification and marked as such.
-/

deriving instance DecidableEq for Except

namespace AgentJs

/-- UTF-8 encoding of a single character (what TextEncoder does per code point). -/
def utf8Char (c : Char) : List Nat :=
  let n := c.toNat
  if n < 0x80 then [n]
  else if n < 0x800 then [0xC0 + n / 64, 0x80 + n % 64]
  else if n < 0x10000 then [0xE0 + n / 4096, 0x80 + (n / 64) % 64, 0x80 + n % 64]
  else [0xF0 + n / 262144, 0x80 + (n / 4096) % 64, 0x80 + (n / 64) % 64, 0x80 + n % 64]

/-- UTF-8 encoding of a string, as `TextEncoder().encode` produces. -/
def utf8 (s : String) : List Nat :=
  (s.data.map utf8Char).flatten

/-- Number of UTF-16 code units of a character; `s.length` in JS counts these. -/
def utf16UnitsChar (c : Char) : Nat :=
  if c.toNat < 0x10000 then 1 else 2

/-- JS `s.length`: the UTF-16 code-unit count of the string. -/
def utf16Len (s : String) : Nat :=
  (s.data.map utf16UnitsChar).sum

/-- Modelled from the spec: the byte-utility module's `compare`
(unsigned byte-lexicographic comparison of two byte strings, with ties on a
common prefix broken by length), here as a boolean less-or-equal test.
The module itself (src/utils/buffer) is not among the provided sources. -/
def bufLe : List Nat → List Nat → Bool
  | [], _ => true
  | _ :: _, [] => false
  | a :: as, b :: bs =>
    if a < b then true
    else if b < a then false
    else bufLe as bs

/-- Modelled from the spec: the byte-utility module's `fromHex` (hex codec),
reading consecutive pairs of hex digits as bytes. -/
def hexDigitVal (c : Char) : Nat :=
  if c.toNat ≥ 48 ∧ c.toNat ≤ 57 then c.toNat - 48
  else if c.toNat ≥ 97 ∧ c.toNat ≤ 102 then c.toNat - 87
  else if c.toNat ≥ 65 ∧ c.toNat ≤ 70 then c.toNat - 55
  else 0

def hexPairsToBytes : List Char → List Nat
  | c1 :: c2 :: rest => (16 * hexDigitVal c1 + hexDigitVal c2) :: hexPairsToBytes rest
  | _ => []

def fromHex (s : String) : List Nat :=
  hexPairsToBytes s.data

/-- Unsigned minimal LEB128 encoding (external `lebEncode` from the candid
package, pinned by the spec's external-interface section). -/
def lebEncode (n : Nat) : List Nat :=
  if n < 128 then [n]
  else (n % 128 + 128) :: lebEncode (n / 128)
decreasing_by exact Nat.div_lt_self (by omega) (by omega)

/-- Unsigned LEB128 decoding (the reading direction of the same interface;
used to model `decodeTime`, whose source lives outside the provided files). -/
def lebDecode : List Nat → Nat
  | [] => 0
  | b :: rest => if b < 128 then b else b % 128 + 128 * lebDecode rest

theorem lebDecode_lebEncode (n : Nat) : lebDecode (lebEncode n) = n := by
  induction n using Nat.strong_induction_on with
  | _ n ih =>
    by_cases h : n < 128
    · simp [lebEncode, lebDecode, h]
    · rw [lebEncode]
      simp only [h, if_false, lebDecode]
      have h128 : ¬ (n % 128 + 128 < 128) := by omega
      simp only [h128, if_false]
      rw [ih (n / 128) (Nat.div_lt_self (by omega) (by omega))]
      omega

/-! ## The hash tree (certificate.ts)

`HashTree` has exactly five constructors; `NodeType` tags of the source
become the constructors of the inductive type. -/

inductive HashTree where
  | empty : HashTree
  | fork (left : HashTree) (right : HashTree) : HashTree
  | labeled (label : List Nat) (subtree : HashTree) : HashTree
  | leaf (contents : List Nat) : HashTree
  | pruned (digest : List Nat) : HashTree
deriving DecidableEq, Repr

/-- `isBufferGreaterThan` from certificate.ts, embedded faithfully: the loop
runs over the indices of `a` and returns true at the first index where
`a[i] > b[i]`; when `i` is past the end of `b`, `b[i]` is `undefined` in JS
and the comparison is false, so the loop just continues. -/
def isBufferGreaterThan : List Nat → List Nat → Bool
  | [], _ => false
  | _ :: _, [] => false
  | a :: as, b :: bs => decide (a > b) || isBufferGreaterThan as bs

/-- Result type of `find_label`: the three lookup statuses plus the
`greater` / `less` markers private to the label search. -/
inductive LabelLookupResult where
  | found (value : HashTree)
  | absent
  | unknown
  | greater
  | less
deriving DecidableEq, Repr

/-- The value carried by a successful `lookup_path`: the bytes of a leaf or
a whole subtree (`ArrayBuffer | HashTree` in the source). -/
inductive LookupValue where
  | bytes (b : List Nat)
  | subtree (t : HashTree)
deriving DecidableEq, Repr

/-- Tri-valued result of `lookup_path`. -/
inductive LookupResult where
  | found (value : LookupValue)
  | absent
  | unknown
deriving DecidableEq, Repr

/-- `find_label` from certificate.ts.  `bufEquals` on byte strings is byte
equality, embedded as list equality. -/
def find_label (label : List Nat) : HashTree → LabelLookupResult
  | .labeled nodeLabel subtree =>
    if isBufferGreaterThan label nodeLabel then .greater
    else if label = nodeLabel then .found subtree
    else .less
  | .fork left right =>
    match find_label label left with
    | .greater =>
      match find_label label right with
      | .less => .absent
      | rightResult => rightResult
    | .unknown =>
      match find_label label right with
      | .less => .unknown
      | rightResult => rightResult
    | leftResult => leftResult
  | .pruned _ => .unknown
  | .empty => .absent
  | .leaf _ => .absent

/-- A path segment: `ArrayBuffer | string`; strings are UTF-8 encoded before
comparison. -/
inductive Seg where
  | s (v : String)
  | b (v : List Nat)
deriving DecidableEq, Repr

def segBytes : Seg → List Nat
  | .s v => utf8 v
  | .b v => v

/-- `lookup_path` from certificate.ts. -/
def lookup_path : List Seg → HashTree → LookupResult
  | [], tree =>
    match tree with
    | .leaf v => .found (.bytes v)
    | t => .found (.subtree t)
  | seg :: rest, tree =>
    match find_label (segBytes seg) tree with
    | .found subtree => lookup_path rest subtree
    | .greater => .absent
    | .less => .absent
    | .unknown => .unknown
    | .absent => .absent

/-- `lookupResultToBuffer`: only a Found whose value is a byte string yields
bytes; a Found subtree yields none. -/
def lookupResultToBuffer : LookupResult → Option (List Nat)
  | .found (.bytes b) => some b
  | _ => none

/-- Spec-side comparator for claim C1: strict unsigned byte-lexicographic
"greater" with ties on a common prefix broken by length, written from the
spec's words (a is greater than b iff not a ≤ b in byte-lex order). -/
def byteLexGreater (a b : List Nat) : Bool :=
  ! bufLe a b

/-! ## Order lemmas for the byte-lex comparator -/

theorem bufLe_total (a b : List Nat) : bufLe a b = true ∨ bufLe b a = true := by
  induction a generalizing b with
  | nil => left; rfl
  | cons x as ih =>
    cases b with
    | nil => right; rfl
    | cons y bs =>
      rcases Nat.lt_trichotomy x y with h | h | h
      · left; simp [bufLe, h]
      · subst h
        rcases ih bs with h2 | h2
        · left; simp [bufLe, h2]
        · right; simp [bufLe, h2]
      · right; simp [bufLe, h]

theorem bufLe_antisymm {a b : List Nat} (h1 : bufLe a b = true)
    (h2 : bufLe b a = true) : a = b := by
  induction a generalizing b with
  | nil =>
    cases b with
    | nil => rfl
    | cons y bs => simp [bufLe] at h2
  | cons x as ih =>
    cases b with
    | nil => simp [bufLe] at h1
    | cons y bs =>
      rcases Nat.lt_trichotomy x y with h | h | h
      · simp [bufLe, h, Nat.not_lt.mpr (Nat.le_of_lt h)] at h2
      · subst h
        simp only [bufLe, Nat.lt_irrefl, if_false] at h1 h2
        rw [ih h1 h2]
      · simp [bufLe, h, Nat.not_lt.mpr (Nat.le_of_lt h)] at h1

theorem bufLe_trans {a b c : List Nat} (h1 : bufLe a b = true)
    (h2 : bufLe b c = true) : bufLe a c = true := by
  induction a generalizing b c with
  | nil => rfl
  | cons x as ih =>
    cases b with
    | nil => simp [bufLe] at h1
    | cons y bs =>
      cases c with
      | nil => simp [bufLe] at h2
      | cons z cs =>
        rcases Nat.lt_trichotomy x y with hxy | hxy | hxy
        · rcases Nat.lt_trichotomy y z with hyz | hyz | hyz
          · simp [bufLe, Nat.lt_trans hxy hyz]
          · subst hyz; simp [bufLe, hxy]
          · simp [bufLe, hyz, Nat.not_lt.mpr (Nat.le_of_lt hyz)] at h2
        · subst hxy
          rcases Nat.lt_trichotomy x z with hyz | hyz | hyz
          · simp [bufLe, hyz]
          · subst hyz
            simp only [bufLe, Nat.lt_irrefl, if_false] at h1 h2 ⊢
            exact ih h1 h2
          · simp [bufLe, hyz, Nat.not_lt.mpr (Nat.le_of_lt hyz)] at h2
        · simp [bufLe, hxy, Nat.not_lt.mpr (Nat.le_of_lt hxy)] at h1

/-- Ordering on hashed (key, value) pairs used by `hashOfMap`: the JS sort
comparator `compare(k1, k2)` looks only at the hashed keys. -/
def keyLe (p q : List Nat × List Nat) : Prop :=
  bufLe p.1 q.1 = true

instance : DecidableRel keyLe := fun p q => by
  unfold keyLe; infer_instance

instance : IsTotal (List Nat × List Nat) keyLe :=
  ⟨fun p q => bufLe_total p.1 q.1⟩

instance : IsTrans (List Nat × List Nat) keyLe :=
  ⟨fun _ _ _ h1 h2 => bufLe_trans h1 h2⟩

/-- Strict version of `keyLe` on pairs with distinct keys; antisymmetric,
which lets two sorted permutations with collision-free keys be identified. -/
def keyLt (p q : List Nat × List Nat) : Prop :=
  keyLe p q ∧ p.1 ≠ q.1

instance : IsAntisymm (List Nat × List Nat) keyLt :=
  ⟨fun _ _ h1 h2 => absurd (bufLe_antisymm h1.1 h2.1) h1.2⟩

/-! ## The value universe of the representation-independent hash
(request_id.ts)

A JS runtime value as `hashValue` can observe it.  An `obj` carries the
facets the source's type tests probe, in one record: a `borc.Tagged`
wrapper payload, a principal's canonical bytes (`_isPrincipal`), a
`toHash` projection, and the own enumerable entries (`Object.entries`,
insertion order, `none` = the JS value `undefined`). -/

inductive JSValue where
  | str (s : String)
  | num (n : Nat)
  | bigint (n : Nat)
  | buf (b : List Nat)
  | arr (elems : List JSValue)
  | obj (tagged : Option JSValue) (principal : Option (List Nat))
        (toHashProj : Option JSValue)
        (entries : List (String × Option JSValue))
  | undef
  | boolean (b : Bool)

/-- The typed failure of `hashValue`: the unsupported-type error carries the
offending value. -/
inductive HashError where
  | unsupported (value : JSValue)

/-- `hashString`: SHA-256 of the UTF-8 encoding. -/
def hashString (hashF : List Nat → List Nat) (s : String) : List Nat :=
  hashF (utf8 s)

/-- The sort-concatenate-hash tail of `hashOfMap`: sort hashed pairs by
hashed key (JS `Array.prototype.sort` with the byte comparator, modelled as
a stable sort meeting the ECMAScript contract), concatenate
`H(key) ‖ H(value)` in that order, and hash the concatenation. -/
def sortAndHashPairs (hashF : List Nat → List Nat)
    (pairs : List (List Nat × List Nat)) : List Nat :=
  hashF (((List.insertionSort keyLe pairs).map (fun p => p.1 ++ p.2)).flatten)

mutual

/-- `hashValue` from request_id.ts.  The source's if-chain probes, in order:
Tagged wrapper, string, number, byte string / view, array, principal,
`toHash` projection, plain object (map), bigint; anything else raises the
unsupported-type error carrying the value. -/
def hashValue (hashF : List Nat → List Nat) :
    JSValue → Except HashError (List Nat)
  | .obj (some inner) _ _ _ => hashValue hashF inner
  | .str s => .ok (hashString hashF s)
  | .num n => .ok (hashF (lebEncode n))
  | .buf b => .ok (hashF b)
  | .arr elems =>
    match hashListValues hashF elems with
    | .ok hs => .ok (hashF hs.flatten)
    | .error e => .error e
  | .obj none (some principalBytes) _ _ => .ok (hashF principalBytes)
  | .obj none none (some projection) _ => hashValue hashF projection
  | .obj none none none entries =>
    match hashEntryPairs hashF entries with
    | .ok pairs => .ok (sortAndHashPairs hashF pairs)
    | .error e => .error e
  | .bigint n => .ok (hashF (lebEncode n))
  | .undef => .error (.unsupported .undef)
  | .boolean b => .error (.unsupported (.boolean b))

/-- Element-wise hashing of a JS array (the `value.map(hashValue)` step). -/
def hashListValues (hashF : List Nat → List Nat) :
    List JSValue → Except HashError (List (List Nat))
  | [] => .ok []
  | v :: vs =>
    match hashValue hashF v with
    | .error e => .error e
    | .ok h =>
      match hashListValues hashF vs with
      | .error e => .error e
      | .ok hs => .ok (h :: hs)

/-- The filter-and-map stage of `hashOfMap`: entries whose value is
`undefined` are dropped, the rest become `(hashString key, hashValue value)`
pairs in entry order. -/
def hashEntryPairs (hashF : List Nat → List Nat) :
    List (String × Option JSValue) →
    Except HashError (List (List Nat × List Nat))
  | [] => .ok []
  | (_, none) :: rest => hashEntryPairs hashF rest
  | (k, some v) :: rest =>
    match hashValue hashF v with
    | .error e => .error e
    | .ok hv =>
      match hashEntryPairs hashF rest with
      | .error e => .error e
      | .ok ps => .ok ((hashString hashF k, hv) :: ps)

end

/-- `hashOfMap` from request_id.ts. -/
def hashOfMap (hashF : List Nat → List Nat)
    (m : List (String × Option JSValue)) : Except HashError (List Nat) :=
  match hashEntryPairs hashF m with
  | .ok pairs => .ok (sortAndHashPairs hashF pairs)
  | .error e => .error e

/-- `requestIdOf`: the digest of the top-level request map. -/
def requestIdOf (hashF : List Nat → List Nat)
    (request : List (String × Option JSValue)) : Except HashError (List Nat) :=
  hashOfMap hashF request

/-- The entries that survive the `value !== undefined` filter. -/
def definedEntries (m : List (String × Option JSValue)) :
    List (String × JSValue) :=
  m.filterMap (fun kv => kv.2.map (fun v => (kv.1, v)))

/-- Left-to-right effectful map over `Except`, mirroring how the source maps
`hashValue` over entries (the first thrown error wins). -/
def mapME (f : α → Except ε β) : List α → Except ε (List β)
  | [] => .ok []
  | a :: l =>
    match f a with
    | .error e => .error e
    | .ok b =>
      match mapME f l with
      | .error e => .error e
      | .ok bs => .ok (b :: bs)

/-- The pair builder of `hashOfMap` on one defined entry. -/
def entryPair (hashF : List Nat → List Nat) (kv : String × JSValue) :
    Except HashError (List Nat × List Nat) :=
  match hashValue hashF kv.2 with
  | .error e => .error e
  | .ok hv => .ok (hashString hashF kv.1, hv)

theorem mapME_cons (f : α → Except ε β) (a : α) (l : List α) :
    mapME f (a :: l) =
      match f a with
      | .error e => .error e
      | .ok b =>
        match mapME f l with
        | .error e => .error e
        | .ok bs => .ok (b :: bs) := rfl

theorem hashEntryPairs_eq_mapME (hashF : List Nat → List Nat)
    (m : List (String × Option JSValue)) :
    hashEntryPairs hashF m = mapME (entryPair hashF) (definedEntries m) := by
  induction m with
  | nil => rfl
  | cons kv rest ih =>
    obtain ⟨k, v⟩ := kv
    cases v with
    | none => simpa [hashEntryPairs, definedEntries, List.filterMap_cons] using ih
    | some v =>
      have hd : definedEntries ((k, some v) :: rest) = (k, v) :: definedEntries rest := by
        simp [definedEntries, List.filterMap_cons]
      rw [hd, mapME_cons]
      simp only [hashEntryPairs]
      rw [ih]
      cases hhv : hashValue hashF v with
      | error e => simp [entryPair, hhv]
      | ok hv =>
        simp only [entryPair, hhv]
        cases mapME (entryPair hashF) (definedEntries rest) <;> rfl

theorem mapME_perm (f : α → Except ε β) {l₁ l₂ : List α} (p : l₁.Perm l₂) :
    ∀ r₁, mapME f l₁ = .ok r₁ →
    ∃ r₂, mapME f l₂ = .ok r₂ ∧ r₁.Perm r₂ := by
  induction p with
  | nil => exact fun r₁ h => ⟨r₁, h, List.Perm.refl r₁⟩
  | cons x p ih =>
    rename_i t₁ t₂
    intro r₁ h
    rw [mapME_cons] at h
    cases hx : f x with
    | error e => rw [hx] at h; cases h
    | ok b =>
      rw [hx] at h
      cases ht : mapME f t₁ with
      | error e => rw [ht] at h; cases h
      | ok bs =>
        rw [ht] at h
        injection h with h
        subst h
        obtain ⟨bs₂, hbs₂, hperm⟩ := ih bs ht
        exact ⟨b :: bs₂, by rw [mapME_cons, hx, hbs₂], hperm.cons b⟩
  | swap x y l =>
    intro r₁ h
    rw [mapME_cons] at h
    cases hy : f y with
    | error e => rw [hy] at h; cases h
    | ok vy =>
      rw [hy, mapME_cons] at h
      cases hx : f x with
      | error e => rw [hx] at h; cases h
      | ok vx =>
        rw [hx] at h
        cases ht : mapME f l with
        | error e => rw [ht] at h; cases h
        | ok bs =>
          rw [ht] at h
          injection h with h
          subst h
          exact ⟨vx :: vy :: bs, by rw [mapME_cons, hx, mapME_cons, hy, ht],
            List.Perm.swap vx vy bs⟩
  | trans p₁ p₂ ih₁ ih₂ =>
    intro r₁ h
    obtain ⟨r₂, h₂, hp₂⟩ := ih₁ r₁ h
    obtain ⟨r₃, h₃, hp₃⟩ := ih₂ r₂ h₂
    exact ⟨r₃, h₃, hp₂.trans hp₃⟩

/-! ## Root-hash reconstruction (certificate.ts) -/

/-- `domain_sep` from certificate.ts: one byte holding `s.length` (a JS
string length, i.e. UTF-16 code units, truncated to a byte by `Uint8Array`)
followed by the UTF-8 bytes of `s`. -/
def domain_sep (s : String) : List Nat :=
  (utf16Len s % 256) :: utf8 s

/-- `reconstruct` from certificate.ts; the external SHA-256 is the `hashF`
parameter. -/
def reconstruct (hashF : List Nat → List Nat) : HashTree → List Nat
  | .empty => hashF (domain_sep "ic-hashtree-empty")
  | .pruned digest => digest
  | .leaf contents => hashF (domain_sep "ic-hashtree-leaf" ++ contents)
  | .labeled label subtree =>
    hashF (domain_sep "ic-hashtree-labeled" ++ label ++ reconstruct hashF subtree)
  | .fork left right =>
    hashF (domain_sep "ic-hashtree-fork" ++ reconstruct hashF left
      ++ reconstruct hashF right)

/-- Spec-side domain separator for claim C3: the one-byte length of `s` is
its UTF-8 byte count there (`DS(s) = byte(len(s)) ‖ utf8(s)`). -/
def domainSepSpec (s : String) : List Nat :=
  ((utf8 s).length % 256) :: utf8 s

/-- Spec-side reconstruction for claim C3, written from the claim's table. -/
def reconstructSpec (hashF : List Nat → List Nat) : HashTree → List Nat
  | .empty => hashF (domainSepSpec "ic-hashtree-empty")
  | .leaf b => hashF (domainSepSpec "ic-hashtree-leaf" ++ b)
  | .labeled l sub => hashF (domainSepSpec "ic-hashtree-labeled" ++ l
      ++ reconstructSpec hashF sub)
  | .fork left right => hashF (domainSepSpec "ic-hashtree-fork"
      ++ reconstructSpec hashF left ++ reconstructSpec hashF right)
  | .pruned d => d

/-! ## DER unwrapping and the certificate verifier (certificate.ts) -/

/-- The closed set of verification failures: `CertificateVerificationError`
reasons, the `TypeError`s of `extractDER`, and the plain errors thrown
during delegation handling. -/
inductive VerifyError where
  | derWrongLength (got : Nat)
  | derBadHeader (got : List Nat)
  | nestedDelegation
  | missingTime
  | certificateTooOld
  | certificateTooNew
  | signatureInvalid
  | canisterNotInRange
  | missingCanisterRanges
  | malformedCanisterRanges
  | missingSubnetKey
deriving DecidableEq, Repr

/-- `DER_PREFIX` from certificate.ts, built through the hex codec exactly as
the source does. -/
def derHeaderBytes : List Nat :=
  fromHex "308182301d060d2b0601040182dc7c0503010201060c2b0601040182dc7c05030201036100"

/-- `KEY_LENGTH` from certificate.ts. -/
def KEY_LENGTH : Nat := 96

/-- `extractDER` from certificate.ts: demand the exact expected length, then
the exact 37-byte header, and return the remaining payload. -/
def extractDER (buf : List Nat) : Except VerifyError (List Nat) :=
  let expectedLength := derHeaderBytes.length + KEY_LENGTH
  if buf.length ≠ expectedLength then .error (.derWrongLength buf.length)
  else
    let headerPart := buf.take derHeaderBytes.length
    if headerPart ≠ derHeaderBytes then .error (.derBadHeader headerPart)
    else .ok (buf.drop derHeaderBytes.length)

/-- A decoded certificate: tree, signature, optional delegation
`(subnet_id, inner certificate)`.  The delegation's certificate field holds
CBOR bytes in the source; the external decoder is folded into the embedding,
so the field here is the decoded inner certificate itself. -/
inductive Cert where
  | mk (tree : HashTree) (sig : List Nat)
       (delegation : Option (List Nat × Cert)) : Cert

def Cert.tree : Cert → HashTree
  | .mk t _ _ => t

def Cert.sig : Cert → List Nat
  | .mk _ s _ => s

def Cert.delegation : Cert → Option (List Nat × Cert)
  | .mk _ _ d => d

/-- `check_canister_ranges` from certificate.ts.  `decodeRanges` stands for
the external `cbor.decode` of the `canister_ranges` leaf (`none` models a
decoder throw); the principal range comparisons `ltEq` / `gtEq` are
modelled from the spec as unsigned byte-lex comparison of principal bytes. -/
def check_canister_ranges (decodeRanges : List Nat → Option (List (List Nat × List Nat)))
    (canisterId subnetId : List Nat) (tree : HashTree) : Except VerifyError Bool :=
  match lookup_path [Seg.s "subnet", Seg.b subnetId, Seg.s "canister_ranges"] tree with
  | .found (.bytes v) =>
    match decodeRanges v with
    | none => .error .malformedCanisterRanges
    | some ranges =>
      .ok (ranges.any (fun r => bufLe r.1 canisterId && bufLe canisterId r.2))
  | _ => .error .missingCanisterRanges

/-- Nanoseconds in five minutes, and in one minute; the certificate time
lives at nanosecond precision (`decodeTime` of utils/leb is not among the
provided sources and is modelled from the spec's external-interface section
as yielding the LEB128-decoded nanosecond instant). -/
def fiveMinutesNs : Int := 5 * 60 * 1000000000

def minuteNs : Int := 60 * 1000000000

mutual

/-- `Certificate.verify` from certificate.ts, in the source's order:
reconstruct the root, resolve the delegation to a DER key, unwrap the DER
key, require the `time` leaf, run the freshness window unless disabled
(`maxAge = none` models the `Infinity` used for delegation certificates,
whose lower bound never fires), and finally call the BLS verifier on
`DS("ic-state-root") ‖ rootHash`. -/
def Certificate.verify (hashF : List Nat → List Nat)
    (blsVerify : List Nat → List Nat → List Nat → Bool)
    (decodeRanges : List Nat → Option (List (List Nat × List Nat)))
    (now : Int) (rootKey canisterId : List Nat)
    (maxAgeInMinutes : Option Nat) (disableTimeVerification : Bool) :
    Cert → Except VerifyError Unit
  | .mk tree sig delegation =>
    let rootHash := reconstruct hashF tree
    match checkDelegationAndGetKey hashF blsVerify decodeRanges now rootKey
        canisterId delegation with
    | .error e => .error e
    | .ok derKey =>
      match extractDER derKey with
      | .error e => .error e
      | .ok key =>
        let msg := domain_sep "ic-state-root" ++ rootHash
        match lookupResultToBuffer (lookup_path [Seg.s "time"] tree) with
        | none => .error .missingTime
        | some timeBytes =>
          let timeCheck : Except VerifyError Unit :=
            if disableTimeVerification then .ok () else
              let certTime : Int := lebDecode timeBytes
              let tooOld : Bool :=
                match maxAgeInMinutes with
                | some m => decide (certTime < now - m * minuteNs)
                | none => false
              if tooOld then .error .certificateTooOld
              else if certTime > now + fiveMinutesNs then .error .certificateTooNew
              else .ok ()
          match timeCheck with
          | .error e => .error e
          | .ok _ =>
            if blsVerify key sig msg then .ok ()
            else .error .signatureInvalid

/-- `Certificate._checkDelegationAndGetKey`: no delegation yields the pinned
root key; otherwise reject a nested delegation, verify the inner certificate
(with `maxAgeInMinutes = Infinity`, time verification enabled), check the
canister range unless the canister is the management canister (the reserved
empty-byte principal), and read the subnet public key from the inner tree. -/
def checkDelegationAndGetKey (hashF : List Nat → List Nat)
    (blsVerify : List Nat → List Nat → List Nat → Bool)
    (decodeRanges : List Nat → Option (List (List Nat × List Nat)))
    (now : Int) (rootKey canisterId : List Nat) :
    Option (List Nat × Cert) → Except VerifyError (List Nat)
  | none => .ok rootKey
  | some (subnetId, inner) =>
    match inner.delegation with
    | some _ => .error .nestedDelegation
    | none =>
      match Certificate.verify hashF blsVerify decodeRanges now rootKey
          canisterId none false inner with
      | .error e => .error e
      | .ok _ =>
        let rangeCheck : Except VerifyError Unit :=
          if canisterId = [] then .ok ()
          else
            match check_canister_ranges decodeRanges canisterId subnetId
                inner.tree with
            | .error e => .error e
            | .ok true => .ok ()
            | .ok false => .error .canisterNotInRange
        match rangeCheck with
        | .error e => .error e
        | .ok _ =>
          match lookupResultToBuffer (lookup_path
              [Seg.s "subnet", Seg.b subnetId, Seg.s "public_key"] inner.tree) with
          | some publicKey => .ok publicKey
          | none => .error .missingSubnetKey

end

/-! ## The poller (polling/index.ts)

`pollForResponse` is embedded over a script: the list of certificate trees
that successive `readState` + `Certificate.create` round trips produce (the
claims condition on what the observed, verified certificates read, so the
transport and the verification of each response are folded into the
script).  `creator` models `agent.createReadStateRequest`, indexed by how
many times it has been called, so that reuse of the first request is an
observable fact.  The result records how often the strategy was awaited,
how often a request was created, and the request used at every iteration. -/

/-- What one poll run returns on the `Replied` branch. -/
structure PollOut (Req : Type) where
  strategyCalls : Nat
  createCalls : Nat
  requestsUsed : List Req
  certificate : HashTree
  reply : Option (List Nat)
deriving Repr

/-- Poll failures: the rejected / done errors of the source, the fall
through `unreachable` throw, and exhaustion of the response script. -/
inductive PollError where
  | rejected (code : Option Nat) (message : List Nat)
  | doneNoReply
  | unexpectedStatus (status : List Nat)
  | noMoreResponses
deriving DecidableEq, Repr

/-- The path `['request_status', requestId]` with the `'status'` segment
appended, all as the source encodes them. -/
def statusSegs (requestId : List Nat) : List Seg :=
  [Seg.b (utf8 "request_status"), Seg.b requestId, Seg.b (utf8 "status")]

def replySegs (requestId : List Nat) : List Seg :=
  [Seg.b (utf8 "request_status"), Seg.b requestId, Seg.s "reply"]

def rejectCodeSegs (requestId : List Nat) : List Seg :=
  [Seg.b (utf8 "request_status"), Seg.b requestId, Seg.s "reject_code"]

def rejectMessageSegs (requestId : List Nat) : List Seg :=
  [Seg.b (utf8 "request_status"), Seg.b requestId, Seg.s "reject_message"]

/-- The status the poller sees in one certificate: the bytes of the status
leaf, or the `Unknown` enum value when the lookup yields no buffer.  The
`RequestStatusResponseStatus` enum lives outside the provided sources; its
string values are modelled from the spec's state names. -/
def observedStatus (requestId : List Nat) (tree : HashTree) : List Nat :=
  match lookupResultToBuffer (lookup_path (statusSegs requestId) tree) with
  | none => utf8 "unknown"
  | some buf => buf

/-- `pollForResponse` from polling/index.ts over a response script.
`request` is the caller's optional pre-signed read-state request;
`createIdx` counts prior `createReadStateRequest` calls. -/
def pollForResponse {Req : Type} (creator : Nat → Req) (requestId : List Nat) :
    Option Req → Nat → List HashTree → Except PollError (PollOut Req)
  | _, _, [] => .error .noMoreResponses
  | request, createIdx, tree :: rest =>
    let currentRequest := request.getD (creator createIdx)
    let createIdxNext := if request.isSome then createIdx else createIdx + 1
    let status := observedStatus requestId tree
    if status = utf8 "replied" then
      .ok ⟨0, createIdxNext, [currentRequest], tree,
        lookupResultToBuffer (lookup_path (replySegs requestId) tree)⟩
    else if status = utf8 "received" ∨ status = utf8 "unknown"
        ∨ status = utf8 "processing" then
      -- await strategy(...), then retry reusing currentRequest
      match pollForResponse creator requestId (some currentRequest)
          createIdxNext rest with
      | .ok out => .ok ⟨out.strategyCalls + 1, out.createCalls,
          currentRequest :: out.requestsUsed, out.certificate, out.reply⟩
      | .error e => .error e
    else if status = utf8 "rejected" then
      .error (.rejected
        (((lookupResultToBuffer (lookup_path (rejectCodeSegs requestId) tree)).getD []).head?)
        ((lookupResultToBuffer (lookup_path (rejectMessageSegs requestId) tree)).getD []))
    else if status = utf8 "done" then
      .error .doneNoReply
    else
      .error (.unexpectedStatus status)

/-! ## Helper objects for the certificate claims -/

/-- A well-formed DER-wrapped key: the fixed header followed by 96 zero
bytes. -/
def exampleRootKey : List Nat :=
  derHeaderBytes ++ List.replicate 96 0

/-- A certificate whose tree is a single `time` leaf and which carries no
delegation. -/
def timeOnlyCert (timeBytes sig : List Nat) : Cert :=
  .mk (.labeled (utf8 "time") (.leaf timeBytes)) sig none

theorem lookup_time_timeOnly (timeBytes : List Nat) :
    lookupResultToBuffer (lookup_path [Seg.s "time"]
      (HashTree.labeled (utf8 "time") (.leaf timeBytes))) = some timeBytes := rfl

set_option maxRecDepth 4000 in
theorem extractDER_exampleRootKey :
    extractDER exampleRootKey = .ok (List.replicate 96 0) := by decide

/-- Reduction of a delegation-free verification (constant-true BLS) to its
freshness check, once the DER key and the time leaf are fixed. -/
theorem verify_reduces_to_time_check
    (hashF : List Nat → List Nat)
    (dr : List Nat → Option (List (List Nat × List Nat)))
    (now : Int) (rootKey key canisterId sig : List Nat)
    (m : Nat) (tree : HashTree) (timeBytes : List Nat)
    (hk : extractDER rootKey = .ok key)
    (ht : lookupResultToBuffer (lookup_path [Seg.s "time"] tree)
      = some timeBytes) :
    Certificate.verify hashF (fun _ _ _ => true) dr now rootKey canisterId
      (some m) false (.mk tree sig none) =
      (if (lebDecode timeBytes : Int) < now - m * minuteNs then
        .error .certificateTooOld
      else if (lebDecode timeBytes : Int) > now + fiveMinutesNs then
        .error .certificateTooNew
      else .ok ()) := by
  simp only [Certificate.verify, checkDelegationAndGetKey, hk, ht]
  by_cases h1 : (lebDecode timeBytes : Int) < now - m * minuteNs
  · simp [h1]
  · by_cases h2 : (lebDecode timeBytes : Int) > now + fiveMinutesNs
    · simp [h1, h2]
    · simp [h1, h2]

/-! ## Claims -/

/-- C1: the claim asks `find_label` at a `Labeled(l, t)` node to classify the
query against `l` by unsigned byte-lex order with ties on a common prefix
broken by length.  The source's `isBufferGreaterThan` compares positionally
instead, so the classification diverges from byte-lex order: the query
`"ab"` against the node label `"a"` is byte-lex greater but the code answers
"less", and the query `[1, 9]` against `[2, 0]` is byte-lex less but the
code answers "greater".  This theorem evaluates the embedded code at both
failing inputs, next to the spec-side byte-lex comparator. -/
theorem C1_findLabel_positional_divergence :
    find_label [0x61, 0x62] (.labeled [0x61] (.leaf [0])) = .less
    ∧ byteLexGreater [0x61, 0x62] [0x61] = true
    ∧ isBufferGreaterThan [0x61, 0x62] [0x61] = false
    ∧ find_label [1, 9] (.labeled [2, 0] (.leaf [0])) = .greater
    ∧ byteLexGreater [1, 9] [2, 0] = false
    ∧ isBufferGreaterThan [1, 9] [2, 0] = true
    ∧ find_label [0x61] (.labeled [0x61] (.leaf [0])) = .found (.leaf [0]) := by
  decide

/-- C2: at a Fork, `find_label` recurses left; a "greater" left result sends
it right, where "less" becomes Absent and anything else is propagated; an
Unknown left result sends it right, where "less" becomes Unknown and
anything else is propagated; Pruned yields Unknown, Empty and Leaf yield
Absent; `lookup_path` converts "greater"/"less" into Absent; and the three
concrete scenarios behave as stated. -/
theorem C2_fork_lookup_semantics :
    (∀ label left right, find_label label (.fork left right) =
      match find_label label left with
      | .greater =>
        match find_label label right with
        | .less => .absent
        | rightResult => rightResult
      | .unknown =>
        match find_label label right with
        | .less => .unknown
        | rightResult => rightResult
      | leftResult => leftResult)
    ∧ (∀ label digest, find_label label (.pruned digest) = .unknown)
    ∧ (∀ label, find_label label .empty = .absent)
    ∧ (∀ label contents, find_label label (.leaf contents) = .absent)
    ∧ (∀ seg rest tree, lookup_path (seg :: rest) tree =
        match find_label (segBytes seg) tree with
        | .found subtree => lookup_path rest subtree
        | .greater => .absent
        | .less => .absent
        | .unknown => .unknown
        | .absent => .absent)
    ∧ (∀ x y, lookup_path [Seg.s "b"]
        (.fork (.labeled (utf8 "a") (.leaf x)) (.labeled (utf8 "c") (.leaf y)))
        = .absent)
    ∧ (∀ h y, lookup_path [Seg.s "b"]
        (.fork (.pruned h) (.labeled (utf8 "c") (.leaf y))) = .unknown)
    ∧ (∀ x y, lookup_path [Seg.s "d"]
        (.fork (.labeled (utf8 "a") (.leaf x)) (.labeled (utf8 "c") (.leaf y)))
        = .absent)
    ∧ (∀ h y, lookup_path [Seg.s "d"]
        (.fork (.pruned h) (.labeled (utf8 "c") (.leaf y))) = .absent) := by
  refine ⟨?_, fun _ _ => rfl, fun _ => rfl, fun _ _ => rfl, fun _ _ _ => rfl,
    fun _ _ => rfl, fun _ _ => rfl, fun _ _ => rfl, fun _ _ => rfl⟩
  intro label left right
  rfl

/-- C3: `reconstruct` computes, for every tree, exactly the digest the claim
tabulates: hash of the domain separator for Empty, of separator ‖ bytes for
Leaf, of separator ‖ label ‖ child digest for Labeled, of separator ‖ left ‖
right digests for Fork, and the stored digest verbatim for Pruned, with
`DS(s) = byte(len(s)) ‖ utf8(s)` — stated as agreement with the
specification-side recursion for every hash function. -/
theorem C3_reconstruct_agrees_with_spec :
    ∀ (hashF : List Nat → List Nat) (t : HashTree),
      reconstruct hashF t = reconstructSpec hashF t := by
  have hempty : domain_sep "ic-hashtree-empty" = domainSepSpec "ic-hashtree-empty" := by decide
  have hleaf : domain_sep "ic-hashtree-leaf" = domainSepSpec "ic-hashtree-leaf" := by decide
  have hlab : domain_sep "ic-hashtree-labeled" = domainSepSpec "ic-hashtree-labeled" := by decide
  have hfork : domain_sep "ic-hashtree-fork" = domainSepSpec "ic-hashtree-fork" := by decide
  intro hashF t
  induction t with
  | empty => rw [reconstruct, reconstructSpec, hempty]
  | fork left right ihl ihr => rw [reconstruct, reconstructSpec, hfork, ihl, ihr]
  | labeled label subtree ih => rw [reconstruct, reconstructSpec, hlab, ih]
  | leaf contents => rw [reconstruct, reconstructSpec, hleaf]
  | pruned digest => rw [reconstruct, reconstructSpec]

/-- C6: `extractDER` succeeds exactly on 133-byte buffers whose first 37
bytes are the fixed BLS12-381 G2 DER header (whose bytes are pinned here),
in which case it returns the trailing 96 bytes; everything else is a typed
error. -/
theorem C6_extractDER_exact :
    ∀ buf : List Nat,
      derHeaderBytes = [0x30, 0x81, 0x82, 0x30, 0x1d, 0x06, 0x0d, 0x2b,
        0x06, 0x01, 0x04, 0x01, 0x82, 0xdc, 0x7c, 0x05, 0x03, 0x01, 0x02,
        0x01, 0x06, 0x0c, 0x2b, 0x06, 0x01, 0x04, 0x01, 0x82, 0xdc, 0x7c,
        0x05, 0x03, 0x02, 0x01, 0x03, 0x61, 0x00]
      ∧ ((extractDER buf).isOk ↔ buf.length = 133 ∧ buf.take 37 = derHeaderBytes)
      ∧ (∀ r, extractDER buf = .ok r → r = buf.drop 37 ∧ r.length = 96)
      ∧ ((buf.length ≠ 133 ∨ buf.take 37 ≠ derHeaderBytes) →
          ∃ e, extractDER buf = .error e) := by
  intro buf
  have hheader : derHeaderBytes = [0x30, 0x81, 0x82, 0x30, 0x1d, 0x06, 0x0d, 0x2b,
      0x06, 0x01, 0x04, 0x01, 0x82, 0xdc, 0x7c, 0x05, 0x03, 0x01, 0x02,
      0x01, 0x06, 0x0c, 0x2b, 0x06, 0x01, 0x04, 0x01, 0x82, 0xdc, 0x7c,
      0x05, 0x03, 0x02, 0x01, 0x03, 0x61, 0x00] := by decide
  have hlen : derHeaderBytes.length = 37 := by decide
  refine ⟨hheader, ?_, ?_, ?_⟩
  · by_cases h1 : buf.length = 133
    · by_cases h2 : buf.take 37 = derHeaderBytes
      · simp [extractDER, hlen, KEY_LENGTH, h1, h2, Except.isOk, Except.toBool]
      · simp [extractDER, hlen, KEY_LENGTH, h1, h2, Except.isOk, Except.toBool]
    · simp [extractDER, hlen, KEY_LENGTH, h1, Except.isOk, Except.toBool]
  · intro r hr
    unfold extractDER at hr
    rw [hlen] at hr
    by_cases h1 : buf.length = 37 + KEY_LENGTH
    · simp only [h1, ne_eq, not_true_eq_false, if_false] at hr
      by_cases h2 : buf.take 37 = derHeaderBytes
      · simp only [h2, ne_eq, not_true_eq_false, if_false] at hr
        injection hr with hr
        subst hr
        refine ⟨rfl, ?_⟩
        rw [List.length_drop, h1]
        simp [KEY_LENGTH]
      · simp [h2] at hr
    · simp [h1] at hr
  · intro h
    unfold extractDER
    rw [hlen]
    by_cases h1 : buf.length = 37 + KEY_LENGTH
    · have h2 : buf.take 37 ≠ derHeaderBytes := by
        rcases h with h | h
        · exact absurd h1 (by simpa [KEY_LENGTH] using h)
        · exact h
      simp [h1, h2]
    · simp [h1]

theorem hashListValues_eq_mapME (hashF : List Nat → List Nat)
    (l : List JSValue) :
    hashListValues hashF l = mapME (hashValue hashF) l := by
  induction l with
  | nil => rfl
  | cons v vs ih =>
    cases hv : hashValue hashF v with
    | error e => simp [hashListValues, mapME_cons, hv]
    | ok h =>
      simp only [hashListValues, mapME_cons, hv, ih]
      cases mapME (hashValue hashF) vs <;> rfl

/-- C8: `hashValue` dispatches in the source's order — a tagged wrapper is
unwrapped and re-hashed before any other facet of the value is looked at;
text, numbers, byte strings, sequences and big integers take their hashing
equations; among object facets a principal beats a `toHash` projection,
which beats treatment as a mapping; and a value matching no case yields the
unsupported-type error carrying that very value. -/
theorem C8_hashValue_dispatch :
    ∀ (hashF : List Nat → List Nat),
      (∀ inner principal proj entries,
        hashValue hashF (.obj (some inner) principal proj entries)
          = hashValue hashF inner)
      ∧ (∀ s, hashValue hashF (.str s) = .ok (hashF (utf8 s)))
      ∧ (∀ n, hashValue hashF (.num n) = .ok (hashF (lebEncode n)))
      ∧ (∀ b, hashValue hashF (.buf b) = .ok (hashF b))
      ∧ (∀ elems, hashValue hashF (.arr elems) =
          match mapME (hashValue hashF) elems with
          | .ok hs => .ok (hashF hs.flatten)
          | .error e => .error e)
      ∧ (∀ principalBytes proj entries,
          hashValue hashF (.obj none (some principalBytes) proj entries)
            = .ok (hashF principalBytes))
      ∧ (∀ proj entries,
          hashValue hashF (.obj none none (some proj) entries)
            = hashValue hashF proj)
      ∧ (∀ entries, hashValue hashF (.obj none none none entries)
          = hashOfMap hashF entries)
      ∧ (∀ n, hashValue hashF (.bigint n) = .ok (hashF (lebEncode n)))
      ∧ (hashValue hashF .undef = .error (.unsupported .undef))
      ∧ (∀ b, hashValue hashF (.boolean b)
          = .error (.unsupported (.boolean b))) := by
  intro hashF
  refine ⟨fun inner principal proj entries => by simp [hashValue],
    fun s => by simp [hashValue, hashString],
    fun n => by simp [hashValue],
    fun b => by simp [hashValue],
    fun elems => ?_,
    fun principalBytes proj entries => by simp [hashValue],
    fun proj entries => by simp [hashValue],
    fun entries => ?_,
    fun n => by simp [hashValue],
    by simp [hashValue],
    fun b => by simp [hashValue]⟩
  · simp only [hashValue, hashListValues_eq_mapME]
  · simp only [hashValue, hashOfMap]

/-- C7: `hashOfMap` hashes exactly the defined entries (undefined values
dropped), as pairs `H(key) ‖ H(value)` laid out in a sequence sorted by the
hashed key in unsigned byte-lex order, and hashes the concatenation; as a
consequence, two maps whose defined entries are permutations of one another
(their hashed keys being pairwise distinct) produce the same digest. -/
theorem C7_hashOfMap_sorted_order_independent :
    ∀ (hashF : List Nat → List Nat) (m : List (String × Option JSValue)),
      (hashEntryPairs hashF m = mapME (entryPair hashF) (definedEntries m))
      ∧ (∀ pairs, hashEntryPairs hashF m = .ok pairs →
          ∃ s, s.Perm pairs ∧ List.Sorted keyLe s ∧
            hashOfMap hashF m = .ok (hashF ((s.map fun p => p.1 ++ p.2).flatten)))
      ∧ (∀ m₂ pairs, hashEntryPairs hashF m = .ok pairs →
          pairs.Pairwise (fun p q => p.1 ≠ q.1) →
          (definedEntries m).Perm (definedEntries m₂) →
          hashOfMap hashF m₂ = hashOfMap hashF m) := by
  intro hashF m
  have hsymm : ∀ {x y : List Nat × List Nat}, x.1 ≠ y.1 → y.1 ≠ x.1 :=
    fun h => Ne.symm h
  refine ⟨hashEntryPairs_eq_mapME hashF m, ?_, ?_⟩
  · intro pairs hp
    exact ⟨List.insertionSort keyLe pairs, List.perm_insertionSort keyLe pairs,
      List.sorted_insertionSort keyLe pairs,
      by simp only [hashOfMap, hp, sortAndHashPairs]⟩
  · intro m₂ pairs hp hnodup hperm
    have h₁ : mapME (entryPair hashF) (definedEntries m) = .ok pairs := by
      rw [← hashEntryPairs_eq_mapME]; exact hp
    obtain ⟨pairs₂, h₂, hpp⟩ := mapME_perm (entryPair hashF) hperm pairs h₁
    have hp₂ : hashEntryPairs hashF m₂ = .ok pairs₂ := by
      rw [hashEntryPairs_eq_mapME]; exact h₂
    have hnodup₂ : pairs₂.Pairwise (fun p q => p.1 ≠ q.1) :=
      (hpp.pairwise_iff hsymm).mp hnodup
    have hs₁s : List.Sorted keyLe (List.insertionSort keyLe pairs) :=
      List.sorted_insertionSort keyLe pairs
    have hs₂s : List.Sorted keyLe (List.insertionSort keyLe pairs₂) :=
      List.sorted_insertionSort keyLe pairs₂
    have hs₁p : (List.insertionSort keyLe pairs).Perm pairs :=
      List.perm_insertionSort keyLe pairs
    have hs₂p : (List.insertionSort keyLe pairs₂).Perm pairs₂ :=
      List.perm_insertionSort keyLe pairs₂
    have hn₁ : (List.insertionSort keyLe pairs).Pairwise
        (fun p q => p.1 ≠ q.1) := (hs₁p.pairwise_iff hsymm).mpr hnodup
    have hn₂ : (List.insertionSort keyLe pairs₂).Pairwise
        (fun p q => p.1 ≠ q.1) := (hs₂p.pairwise_iff hsymm).mpr hnodup₂
    have hlt₁ : List.Sorted keyLt (List.insertionSort keyLe pairs) :=
      hs₁s.and hn₁
    have hlt₂ : List.Sorted keyLt (List.insertionSort keyLe pairs₂) :=
      hs₂s.and hn₂
    have hsp : (List.insertionSort keyLe pairs).Perm
        (List.insertionSort keyLe pairs₂) :=
      hs₁p.trans (hpp.trans hs₂p.symm)
    have heq : List.insertionSort keyLe pairs
        = List.insertionSort keyLe pairs₂ :=
      List.eq_of_perm_of_sorted hsp hlt₁ hlt₂
    simp only [hashOfMap, hp, hp₂, sortAndHashPairs, heq]

/-- C7 witness: a three-entry map with one undefined entry, against a
reordering of itself. -/
theorem C7_hashOfMap_sorted_order_independent_witness :
    hashOfMap (fun l => l)
        [("d", some (.buf [7])), ("b", some (.str "q")), ("a", none)]
      = hashOfMap (fun l => l)
        [("b", some (.str "q")), ("a", none), ("d", some (.buf [7]))] := by
  have hp : hashEntryPairs (fun l : List Nat => l)
      [("b", some (.str "q")), ("a", none), ("d", some (.buf [7]))]
      = .ok [([98], [113]), ([100], [7])] := by
    simp [hashEntryPairs, hashValue, hashString]
    decide
  have hd₁ : definedEntries
      [("b", some (.str "q")), ("a", none), ("d", some (.buf [7]))]
      = [("b", JSValue.str "q"), ("d", JSValue.buf [7])] := rfl
  have hd₂ : definedEntries
      [("d", some (.buf [7])), ("b", some (.str "q")), ("a", none)]
      = [("d", JSValue.buf [7]), ("b", JSValue.str "q")] := rfl
  exact (C7_hashOfMap_sorted_order_independent (fun l => l)
      [("b", some (.str "q")), ("a", none), ("d", some (.buf [7]))]).2.2
    [("d", some (.buf [7])), ("b", some (.str "q")), ("a", none)]
    [([98], [113]), ([100], [7])] hp (by decide)
    (by rw [hd₁, hd₂]
        exact List.Perm.swap ("d", JSValue.buf [7]) ("b", JSValue.str "q") [])

/-- C4: a certificate carrying a delegation whose inner certificate itself
carries a delegation fails verification with the nested-delegation error —
for every root key, canister, age limit and time-verification flag; the
inner certificate is never consulted as a key source. -/
theorem C4_nested_delegation_rejected :
    ∀ (hashF : List Nat → List Nat)
      (bls : List Nat → List Nat → List Nat → Bool)
      (dr : List Nat → Option (List (List Nat × List Nat)))
      (now : Int) (rootKey canisterId sig subnetId : List Nat)
      (maxAge : Option Nat) (dtv : Bool) (tree : HashTree) (inner : Cert),
      (Cert.delegation inner).isSome = true →
      Certificate.verify hashF bls dr now rootKey canisterId maxAge dtv
        (.mk tree sig (some (subnetId, inner))) = .error .nestedDelegation := by
  intro hashF bls dr now rootKey canisterId sig subnetId maxAge dtv tree inner hinner
  cases inner with
  | mk itree isig idel =>
    cases idel with
    | none => simp [Cert.delegation] at hinner
    | some d =>
      simp only [Certificate.verify, checkDelegationAndGetKey, Cert.delegation]

/-- C4 witness: a doubly-nested delegation is rejected. -/
theorem C4_nested_delegation_rejected_witness :
    Certificate.verify (fun l => l) (fun _ _ _ => true) (fun _ => none) 0 [] []
      none false
      (.mk .empty []
        (some ([], .mk .empty [] (some ([], .mk .empty [] none)))))
      = .error .nestedDelegation :=
  C4_nested_delegation_rejected (fun l => l) (fun _ _ _ => true) (fun _ => none)
    0 [] [] [] [] none false .empty
    (.mk .empty [] (some ([], .mk .empty [] none))) rfl

/-- C5: with time verification enabled (and everything else about the
certificate in order: intact DER key, present time leaf, accepting BLS),
the freshness check accepts exactly the closed interval from
`now - maxAge` to `now + 5 minutes` on the decoded certificate time — so
the boundary instants are accepted and one nanosecond beyond either bound
is rejected with the corresponding typed error. -/
theorem C5_freshness_closed_interval :
    ∀ (hashF : List Nat → List Nat)
      (dr : List Nat → Option (List (List Nat × List Nat)))
      (sig timeBytes : List Nat) (now : Int) (m : Nat),
      (Certificate.verify hashF (fun _ _ _ => true) dr now exampleRootKey []
          (some m) false (timeOnlyCert timeBytes sig) = .ok ()
        ↔ now - m * minuteNs ≤ (lebDecode timeBytes : Int)
          ∧ (lebDecode timeBytes : Int) ≤ now + fiveMinutesNs)
      ∧ ((lebDecode timeBytes : Int) < now - m * minuteNs →
          Certificate.verify hashF (fun _ _ _ => true) dr now exampleRootKey []
            (some m) false (timeOnlyCert timeBytes sig)
            = .error .certificateTooOld)
      ∧ (now + fiveMinutesNs < (lebDecode timeBytes : Int) →
          Certificate.verify hashF (fun _ _ _ => true) dr now exampleRootKey []
            (some m) false (timeOnlyCert timeBytes sig)
            = .error .certificateTooNew) := by
  intro hashF dr sig timeBytes now m
  have hred := verify_reduces_to_time_check hashF dr now exampleRootKey
    (List.replicate 96 0) [] sig m (.labeled (utf8 "time") (.leaf timeBytes))
    timeBytes extractDER_exampleRootKey (lookup_time_timeOnly timeBytes)
  have hcert : timeOnlyCert timeBytes sig
      = Cert.mk (.labeled (utf8 "time") (.leaf timeBytes)) sig none := rfl
  refine ⟨?_, ?_, ?_⟩
  · rw [hcert, hred]
    constructor
    · intro hok
      by_cases h1 : (lebDecode timeBytes : Int) < now - m * minuteNs
      · rw [if_pos h1] at hok
        exact absurd hok (by simp)
      · rw [if_neg h1] at hok
        by_cases h2 : (lebDecode timeBytes : Int) > now + fiveMinutesNs
        · rw [if_pos h2] at hok
          exact absurd hok (by simp)
        · exact ⟨by omega, by omega⟩
    · intro hin
      rw [if_neg (by omega), if_neg (by omega)]
  · intro h
    rw [hcert, hred]
    simp [h]
  · intro h
    rw [hcert, hred]
    have h1 : ¬ ((lebDecode timeBytes : Int) < now - m * minuteNs) := by
      simp only [fiveMinutesNs, minuteNs] at h ⊢
      omega
    simp [h1, h]

/-- C5 witness: with `now = 300000000000 ns` and `maxAge = 0 min`, the
decoded times `now - maxAge` and `now + 5 min` (LEB128-encoded in the time
leaf) are accepted while one nanosecond beyond either bound is rejected. -/
theorem C5_freshness_closed_interval_witness :
    Certificate.verify (fun l => l) (fun _ _ _ => true) (fun _ => none)
      300000000000 exampleRootKey [] (some 0) false
      (timeOnlyCert [128, 240, 146, 203, 221, 8] []) = .ok ()
    ∧ Certificate.verify (fun l => l) (fun _ _ _ => true) (fun _ => none)
      300000000000 exampleRootKey [] (some 0) false
      (timeOnlyCert [255, 239, 146, 203, 221, 8] [])
      = .error .certificateTooOld
    ∧ Certificate.verify (fun l => l) (fun _ _ _ => true) (fun _ => none)
      300000000000 exampleRootKey [] (some 0) false
      (timeOnlyCert [128, 224, 165, 150, 187, 17] []) = .ok ()
    ∧ Certificate.verify (fun l => l) (fun _ _ _ => true) (fun _ => none)
      300000000000 exampleRootKey [] (some 0) false
      (timeOnlyCert [129, 224, 165, 150, 187, 17] [])
      = .error .certificateTooNew :=
  ⟨(C5_freshness_closed_interval (fun l => l) (fun _ => none) []
      [128, 240, 146, 203, 221, 8] 300000000000 0).1.mpr (by decide),
    (C5_freshness_closed_interval (fun l => l) (fun _ => none) []
      [255, 239, 146, 203, 221, 8] 300000000000 0).2.1 (by decide),
    (C5_freshness_closed_interval (fun l => l) (fun _ => none) []
      [128, 224, 165, 150, 187, 17] 300000000000 0).1.mpr (by decide),
    (C5_freshness_closed_interval (fun l => l) (fun _ => none) []
      [129, 224, 165, 150, 187, 17] 300000000000 0).2.2 (by decide)⟩

/-- C10: a delegation-free certificate with an intact DER root key but no
value at path `['time']` fails verification with the missing-time error for
both values of the time-verification flag, every `now` and every age limit:
the presence check on `['time']` runs before and independently of the
freshness-window comparison. -/
theorem C10_missing_time_unconditional :
    ∀ (hashF : List Nat → List Nat)
      (bls : List Nat → List Nat → List Nat → Bool)
      (dr : List Nat → Option (List (List Nat × List Nat)))
      (now : Int) (rootKey key canisterId sig : List Nat)
      (maxAge : Option Nat) (dtv : Bool) (tree : HashTree),
      extractDER rootKey = .ok key →
      lookupResultToBuffer (lookup_path [Seg.s "time"] tree) = none →
      Certificate.verify hashF bls dr now rootKey canisterId maxAge dtv
        (.mk tree sig none) = .error .missingTime := by
  intro hashF bls dr now rootKey key canisterId sig maxAge dtv tree hk ht
  simp only [Certificate.verify, checkDelegationAndGetKey, hk, ht]

/-- C10 witness: an empty tree has no time leaf; the missing-time error
fires with time verification disabled as well as enabled. -/
theorem C10_missing_time_unconditional_witness :
    Certificate.verify (fun l => l) (fun _ _ _ => true) (fun _ => none) 0
      exampleRootKey [] (some 5) true (.mk .empty [] none)
      = .error .missingTime
    ∧ Certificate.verify (fun l => l) (fun _ _ _ => true) (fun _ => none) 0
      exampleRootKey [] (some 5) false (.mk .empty [] none)
      = .error .missingTime :=
  ⟨C10_missing_time_unconditional (fun l => l) (fun _ _ _ => true)
      (fun _ => none) 0 exampleRootKey (List.replicate 96 0) [] [] (some 5)
      true .empty extractDER_exampleRootKey rfl,
    C10_missing_time_unconditional (fun l => l) (fun _ _ _ => true)
      (fun _ => none) 0 exampleRootKey (List.replicate 96 0) [] [] (some 5)
      false .empty extractDER_exampleRootKey rfl⟩

/-- C9: a poll run whose observed certificates read non-terminal statuses
(received, processing, or a missing status treated as unknown) and then
"replied" returns that final certificate with the bytes at the reply path,
having awaited the strategy once per non-terminal status; every iteration
used the very request of the first iteration and a read-state request was
created at most once (not at all when the caller supplied one); a
"rejected" status raises the error carrying the first byte of
`reject_code` and the `reject_message` bytes, and "done" raises the
done-without-reply error. -/
theorem C9_poll_state_machine :
    (∀ (Req : Type) (creator : Nat → Req) (requestId : List Nat)
        (final : HashTree) (pre : List HashTree) (req0 : Option Req) (k0 : Nat),
      (∀ t ∈ pre, observedStatus requestId t = utf8 "received"
        ∨ observedStatus requestId t = utf8 "processing"
        ∨ observedStatus requestId t = utf8 "unknown") →
      observedStatus requestId final = utf8 "replied" →
      pollForResponse creator requestId req0 k0 (pre ++ [final])
        = .ok ⟨pre.length, if req0.isSome then k0 else k0 + 1,
            List.replicate (pre.length + 1) (req0.getD (creator k0)), final,
            lookupResultToBuffer (lookup_path (replySegs requestId) final)⟩)
    ∧ (∀ (Req : Type) (creator : Nat → Req) (requestId : List Nat)
        (req0 : Option Req) (k0 : Nat) (t : HashTree) (rest : List HashTree),
      observedStatus requestId t = utf8 "rejected" →
      pollForResponse creator requestId req0 k0 (t :: rest)
        = .error (.rejected
            (((lookupResultToBuffer
                (lookup_path (rejectCodeSegs requestId) t)).getD []).head?)
            ((lookupResultToBuffer
                (lookup_path (rejectMessageSegs requestId) t)).getD [])))
    ∧ (∀ (Req : Type) (creator : Nat → Req) (requestId : List Nat)
        (req0 : Option Req) (k0 : Nat) (t : HashTree) (rest : List HashTree),
      observedStatus requestId t = utf8 "done" →
      pollForResponse creator requestId req0 k0 (t :: rest)
        = .error .doneNoReply) := by
  refine ⟨?_, ?_, ?_⟩
  · intro Req creator requestId final pre
    induction pre with
    | nil =>
      intro req0 k0 _ hfinal
      simp [pollForResponse, hfinal]
    | cons t pre ih =>
      intro req0 k0 hpre hfinal
      have hht := hpre t (List.mem_cons_self t pre)
      have hne1 : ¬ (observedStatus requestId t = utf8 "replied") := by
        rcases hht with h | h | h <;> rw [h] <;> decide
      have hwait : observedStatus requestId t = utf8 "received"
          ∨ observedStatus requestId t = utf8 "unknown"
          ∨ observedStatus requestId t = utf8 "processing" := by
        rcases hht with h | h | h
        · exact Or.inl h
        · exact Or.inr (Or.inr h)
        · exact Or.inr (Or.inl h)
      have hrec := ih (some (req0.getD (creator k0)))
        (if req0.isSome then k0 else k0 + 1)
        (fun u hu => hpre u (List.mem_cons_of_mem t hu)) hfinal
      simp only [List.cons_append, pollForResponse, hne1, if_false, hwait,
        if_true, List.append_eq]
      rw [hrec]
      simp [List.replicate_succ]
  · intro Req creator requestId req0 k0 t rest hst
    simp only [pollForResponse, hst]
    rw [if_neg (by decide), if_neg (by decide)]
    simp
  · intro Req creator requestId req0 k0 t rest hst
    simp only [pollForResponse, hst]
    rw [if_neg (by decide), if_neg (by decide), if_neg (by decide)]
    simp

/-- A certificate tree reading status "processing" for a request id. -/
def processingTree (requestId : List Nat) : HashTree :=
  .labeled (utf8 "request_status") (.labeled requestId
    (.labeled (utf8 "status") (.leaf (utf8 "processing"))))

/-- A certificate tree reading status "replied", with a reply leaf. -/
def repliedTree (requestId reply : List Nat) : HashTree :=
  .labeled (utf8 "request_status") (.labeled requestId
    (.fork (.labeled (utf8 "reply") (.leaf reply))
      (.labeled (utf8 "status") (.leaf (utf8 "replied")))))

/-- C9 witness: the spec's Poll-Replied scenario — two "processing"
certificates then "replied" with reply bytes 0xAA 0xBB: the strategy is
awaited exactly twice, one request is created and reused throughout, and
the reply bytes come back. -/
theorem C9_poll_state_machine_witness :
    pollForResponse (fun k => k) [1, 2] none 0
      [processingTree [1, 2], processingTree [1, 2],
        repliedTree [1, 2] [0xAA, 0xBB]]
      = .ok ⟨2, 1, [0, 0, 0], repliedTree [1, 2] [0xAA, 0xBB],
          some [0xAA, 0xBB]⟩ := by
  have h := C9_poll_state_machine.1 Nat (fun k => k) [1, 2]
    (repliedTree [1, 2] [0xAA, 0xBB])
    [processingTree [1, 2], processingTree [1, 2]] none 0
    (by decide) (by decide)
  have hlist : [processingTree [1, 2], processingTree [1, 2],
      repliedTree [1, 2] [0xAA, 0xBB]]
      = [processingTree [1, 2], processingTree [1, 2]]
        ++ [repliedTree [1, 2] [0xAA, 0xBB]] := rfl
  have hreply : lookupResultToBuffer (lookup_path (replySegs [1, 2])
      (repliedTree [1, 2] [0xAA, 0xBB])) = some [0xAA, 0xBB] := by decide
  rw [hlist, h, hreply]
  rfl

set_option maxRecDepth 4000 in
/-- C6 witness: a well-formed 133-byte key splits into its 96-byte payload,
and a 10-byte buffer is rejected. -/
theorem C6_extractDER_exact_witness :
    ((List.replicate 96 0xAB : List Nat) =
        (derHeaderBytes ++ List.replicate 96 0xAB).drop 37
      ∧ (List.replicate 96 0xAB : List Nat).length = 96)
    ∧ ∃ e, extractDER (List.replicate 10 0) = .error e :=
  ⟨(C6_extractDER_exact (derHeaderBytes ++ List.replicate 96 0xAB)).2.2.1
      (List.replicate 96 0xAB) (by decide),
    (C6_extractDER_exact (List.replicate 10 0)).2.2.2 (Or.inl (by decide))⟩

end AgentJs
